import Mathlib

/-!
Shallow embedding of TianmengDev/KPIChecker's core
(src/kpichecker/kpi_checker.py and src/kpichecker/config.py).

Python strings are modelled as `List Char` / `String`; dynamically typed
dictionary values as small sum types; `re` pattern matching is embedded by
translating each configured pattern (all of which are sequences of
single-character atoms with greedy bounded or unbounded repetition and at
most two capture groups) into a list of `Item`s and running a greedy
backtracking matcher, scanning positions left to right exactly as
`re.finditer` yields its first match.  Python `\d` and `\s` are modelled by
their ASCII parts, which are the only parts the repository's patterns and
inputs exercise.  Python floats are modelled by exact rationals; `round(x, 2)`
is modelled as round-half-to-even at two decimal digits.
-/

/-- A Python value, as far as `check_text`'s input dynamic typing is
concerned (`if not text or not isinstance(text, str)`). -/
inductive PyVal where
  | vnone
  | vbool (b : Bool)
  | vint (n : Int)
  | vstr (s : String)
  | vlist (elems : List PyVal)

/-- Python truthiness (`not text`) of a `PyVal`. -/
def pyTruthy : PyVal → Bool
  | .vnone => false
  | .vbool b => b
  | .vint n => !(n == 0)
  | .vstr s => !(s == "")
  | .vlist l => !l.isEmpty

/-- Model of `isinstance(text, str)`. -/
def PyVal.isStr : PyVal → Bool
  | .vstr _ => true
  | _ => false

/-- The underlying string of a string `PyVal` (junk elsewhere; only used
behind an `isStr` test, as in the source). -/
def PyVal.strVal : PyVal → String
  | .vstr s => s
  | _ => ""

/-- The value stored under the `score` key of a result dictionary: Python is
dynamically typed there, the code stores either `None` or the captured
substring (a `str`); an `int` constructor is included because spec-level
claims speak about integer scores, and `analyze_results` only looks at the
value through truthiness and `int(...)`. -/
inductive PyScalar where
  | pnone
  | pstr (s : String)
  | pint (n : Int)
deriving DecidableEq

/-- Python truthiness of a score value (`if score:`). -/
def PyScalar.truthy : PyScalar → Bool
  | .pnone => false
  | .pstr s => !(s == "")
  | .pint n => !(n == 0)

/-- One repetition element of a compiled pattern: a single-character
predicate repeated greedily between `lo` and `hi` times (`hi = none` meaning
unbounded, as in `\s*`), optionally recording its consumed substring as
capture group `group`.  Every pattern in the repository's configuration is a
sequence of such elements. -/
structure Item where
  pred : Char → Bool
  lo : Nat
  hi : Option Nat
  group : Option Nat

/-- Length of the maximal prefix of `cs` whose characters all satisfy `p`
(the furthest a greedy single-character repetition can reach). -/
def predRun (p : Char → Bool) : List Char → Nat
  | [] => 0
  | c :: cs => if p c then predRun p cs + 1 else 0

/-- The repetition counts a greedy matcher tries, in order:
`hi, hi - 1, ..., lo` (empty when `hi < lo`). -/
def descRange (hi lo : Nat) : List Nat :=
  (List.range (hi + 1 - lo)).map (fun j => hi - j)

/-- First successful result of `f` over a list of candidates, in order. -/
def firstSome (f : Nat → Option α) : List Nat → Option α
  | [] => none
  | k :: ks =>
    match f k with
    | some r => some r
    | none => firstSome f ks

/-- Record a capture group's substring, if the item is a group. -/
def pushGroup (g : Option Nat) (s : String) (caps : List (Nat × String)) :
    List (Nat × String) :=
  match g with
  | some gg => (gg, s) :: caps
  | none => caps

/-- Largest repetition count an item may consume when the maximal reachable
run has length `r`: its bound `hi`, capped by `r` (`r` itself for `hi = none`). -/
def itemHi (it : Item) (r : Nat) : Nat :=
  match it.hi with
  | some m => Nat.min m r
  | none => r

/-- Greedy backtracking match of a compiled pattern (list of items) against
a prefix of `cs`.  On success returns the captured groups and the total
number of characters consumed.  This is Python `re`'s behaviour on patterns
made of single-character atoms: each repetition first consumes as much as it
can, then backs off one character at a time down to its minimum. -/
def matchItems : List Item → List Char → Option (List (Nat × String) × Nat)
  | [], _ => some ([], 0)
  | it :: rest, cs =>
    firstSome
      (fun k =>
        (matchItems rest (List.drop k cs)).map
          (fun pr => (pushGroup it.group (String.mk (List.take k cs)) pr.1, k + pr.2)))
      (descRange (itemHi it (predRun it.pred cs)) it.lo)

/-- Scan start positions left to right and return the first (leftmost)
match, with its start position — the first match `re.finditer` yields. -/
def scanFrom (f : List Char → Option (List (Nat × String) × Nat)) :
    List Char → Option (Nat × (List (Nat × String) × Nat))
  | [] => (f []).map (fun r => (0, r))
  | c :: cs =>
    match f (c :: cs) with
    | some r => some (0, r)
    | none => (scanFrom f cs).map (fun p => (p.1 + 1, p.2))

/-- A configured pattern: its source text (the string stored in the
configuration and returned in `matching_pattern`) and its compiled form. -/
structure Pat where
  src : String
  items : List Item

/-- ASCII part of Python `\s`. -/
def isPySpace (c : Char) : Bool :=
  c == ' ' || c == '\t' || c == '\n' || c == '\r' || c == '\x0b' || c == '\x0c'

/-- A literal character of a pattern. -/
def litItem (c : Char) : Item := ⟨fun x => x == c, 1, some 1, none⟩

/-- A literal run of characters. -/
def litItems (s : String) : List Item := s.data.map litItem

/-- An optional literal character (`c?`). -/
def optItem (c : Char) : Item := ⟨fun x => x == c, 0, some 1, none⟩

/-- A one-character class (`[...]`). -/
def classItem (cs : List Char) : Item := ⟨fun x => cs.contains x, 1, some 1, none⟩

/-- A capturing digit run `(\d{lo,hi})`, ASCII digits. -/
def digitsItem (lo hi g : Nat) : Item := ⟨Char.isDigit, lo, some hi, some g⟩

/-- `\s*`. -/
def wsStar : Item := ⟨isPySpace, 0, none, none⟩

/-- Source text of configured pattern index 0. -/
def pat0src : String := "(\\d\x7b4\x7d)年?第?[一二三四]季度KPI考核自评(\\d\x7b1,3\x7d)分"

/-- Compiled pattern index 0: `(\d{4})年?第?[一二三四]季度KPI考核自评(\d{1,3})分`. -/
def pat0 : Pat :=
  ⟨pat0src,
    digitsItem 4 4 1 :: optItem '年' :: optItem '第' ::
      classItem ['一', '二', '三', '四'] ::
      (litItems "季度KPI考核自评" ++ [digitsItem 1 3 2, litItem '分'])⟩

/-- Source text of configured pattern index 1. -/
def pat1src : String := "季度KPI考核自评(\\d\x7b1,3\x7d)分"

/-- Compiled pattern index 1: `季度KPI考核自评(\d{1,3})分`. -/
def pat1 : Pat :=
  ⟨pat1src, litItems "季度KPI考核自评" ++ [digitsItem 1 3 1, litItem '分']⟩

/-- Source text of configured pattern index 2. -/
def pat2src : String := "KPI\\s*自评得分\\s*(\\d\x7b1,3\x7d)\\s*分"

/-- Compiled pattern index 2: `KPI\s*自评得分\s*(\d{1,3})\s*分`. -/
def pat2 : Pat :=
  ⟨pat2src,
    litItems "KPI" ++ (wsStar :: litItems "自评得分") ++
      [wsStar, digitsItem 1 3 1, wsStar, litItem '分']⟩

/-- Source text of configured pattern index 3. -/
def pat3src : String := "自评得分\\s*(\\d\x7b1,3\x7d)\\s*分"

/-- Compiled pattern index 3: `自评得分\s*(\d{1,3})\s*分`. -/
def pat3 : Pat :=
  ⟨pat3src, litItems "自评得分" ++ [wsStar, digitsItem 1 3 1, wsStar, litItem '分']⟩

/-- Source text of configured pattern index 4. -/
def pat4src : String := "KPI考核自评(\\d\x7b1,3\x7d)分"

/-- Compiled pattern index 4: `KPI考核自评(\d{1,3})分`. -/
def pat4 : Pat :=
  ⟨pat4src, litItems "KPI考核自评" ++ [digitsItem 1 3 1, litItem '分']⟩

/-- The configured default pattern list (`Config.default_config["kpi_patterns"]`),
in its configured order. -/
def defaultKpiPatterns : List Pat := [pat0, pat1, pat2, pat3, pat4]

/-- The verdict dictionary returned by `KPIChecker.check_text`. -/
structure Verdict where
  has_kpi_statement : Bool
  score : PyScalar
  matching_pattern : Option String
  match_text : Option String
  year : Option String
deriving DecidableEq

/-- The no-match verdict (`check_text`'s empty-input and fall-through
branches, lines 38-44 and 78-84). -/
def absentVerdict : Verdict :=
  { has_kpi_statement := false
    score := .pnone
    matching_pattern := none
    match_text := none
    year := none }

/-- A captured group as a score value: the captured substring, or `None`
when absent. -/
def capScalar : Option String → PyScalar
  | some s => .pstr s
  | none => .pnone

/-- The string content of a verdict's score field (empty when the field is
not a string) — an accessor for stating that the score is stored as a
string. -/
def Verdict.scoreStr (v : Verdict) : String :=
  match v.score with
  | .pstr s => s
  | _ => ""

/-- The string content of a verdict's year field (empty when absent). -/
def Verdict.yearStr (v : Verdict) : String := v.year.getD ""

/-- Build the verdict from the match used by `check_text`: pattern index 0
takes `year = group(1)`, `score = group(2)`; every other index takes
`score = group(1)` and no year.  `m` is (start position, (groups, length)). -/
def verdictOfMatch (i : Nat) (src : String) (cs : List Char)
    (m : Nat × (List (Nat × String) × Nat)) : Verdict :=
  let mtext := String.mk (List.take m.2.2 (List.drop m.1 cs))
  if i == 0 then
    { has_kpi_statement := true
      score := capScalar (m.2.1.lookup 2)
      matching_pattern := some src
      match_text := some mtext
      year := m.2.1.lookup 1 }
  else
    { has_kpi_statement := true
      score := capScalar (m.2.1.lookup 1)
      matching_pattern := some src
      match_text := some mtext
      year := none }

/-- The pattern loop of `check_text` (lines 50-75): try each pattern in
order, return on the first pattern whose scan finds a match, using that
scan's first (leftmost) occurrence. -/
def checkLoop : List Pat → Nat → List Char → Verdict
  | [], _, _ => absentVerdict
  | p :: rest, i, cs =>
    match scanFrom (matchItems p.items) cs with
    | some m => verdictOfMatch i p.src cs m
    | none => checkLoop rest (i + 1) cs

/-- `KPIChecker.check_text`: the guard `if not text or not isinstance(text, str)`
returns the absent verdict; otherwise the pattern loop runs on the text. -/
def checkText (pats : List Pat) (text : PyVal) : Verdict :=
  if !(pyTruthy text) || !(text.isStr) then absentVerdict
  else checkLoop pats 0 text.strVal.data

/-- Decimal digits of `l` read as a base-10 natural number. -/
def digitsToNat (l : List Char) : Nat :=
  l.foldl (fun a c => a * 10 + (c.toNat - 48)) 0

/-- A nonempty all-digit character list parsed to a natural number. -/
def parseDigits (l : List Char) : Option Nat :=
  if !l.isEmpty && l.all Char.isDigit then some (digitsToNat l) else none

/-- Python `int(s)` on the strings this repository produces: an optional
sign followed by decimal digits; `none` models the `ValueError` raised on
anything else.  (Python additionally tolerates surrounding whitespace,
underscores and Unicode digits; nothing in this repository exercises those.) -/
def parsePyInt (s : String) : Option Int :=
  match s.data with
  | [] => none
  | c :: rest =>
    if c == '-' then (parseDigits rest).map (fun n => -(n : Int))
    else if c == '+' then (parseDigits rest).map (fun n => (n : Int))
    else (parseDigits (c :: rest)).map (fun n => (n : Int))

/-- Python `int(x)` on a score value; `none` models a raised exception. -/
def pyIntOfScalar : PyScalar → Option Int
  | .pnone => none
  | .pstr s => parsePyInt s
  | .pint n => some n

/-- Round the fraction `n / d` (`d` positive) to the nearest integer, ties
to even — Python's `round` semantics on an exactly represented value.
`f` is the floor of the fraction and `r` its remainder numerator, so the
fractional part is `r / d`; the tie `r / d = 1 / 2` is `2 * r = d`. -/
def roundHalfEven (n : ℤ) (d : ℕ) : ℤ :=
  let f := n.fdiv d
  let r := n - f * d
  if 2 * r < (d : ℤ) then f
  else if (d : ℤ) < 2 * r then f + 1
  else if f % 2 = 0 then f else f + 1

/-- Python `round(x, 2)` modelled on exact rationals: the nearest multiple
of 1/100, ties to even. -/
def pyRound2 (q : ℚ) : ℚ := mkRat (roundHalfEven (100 * q.num) q.den) 100

/-- One `dist[score] += 1 / dist[score] = 1` step of the score-distribution
dictionary (lines 118-126); the dictionary is an insertion-ordered
association list with unique keys. -/
def bumpDist : List (Int × Nat) → Int → List (Int × Nat)
  | [], k => [(k, 1)]
  | kv :: rest, k =>
    if kv.1 == k then (kv.1, kv.2 + 1) :: rest else kv :: bumpDist rest k

/-- The score-distribution loop of `analyze_results`: for each verdict with
a truthy `score`, convert it with `int(...)` and bump its bucket; a failing
conversion (`ValueError`) yields `none`. -/
def distLoop : List Verdict → List (Int × Nat) → Option (List (Int × Nat))
  | [], d => some d
  | v :: vs, d =>
    if v.score.truthy then
      match pyIntOfScalar v.score with
      | some k => distLoop vs (bumpDist d k)
      | none => none
    else distLoop vs d

/-- `total_score = sum(int(result.get('score', 0)) for ... if result.get('score'))`
(line 129); `none` models a raised `ValueError`. -/
def scoreSum : List Verdict → Option Int
  | [] => some 0
  | v :: vs =>
    if v.score.truthy then
      match pyIntOfScalar v.score, scoreSum vs with
      | some k, some rest => some (k + rest)
      | _, _ => none
    else scoreSum vs

/-- The summary dictionary returned by `KPIChecker.analyze_results`. -/
structure Summary where
  total_files : Nat
  files_with_kpi : Nat
  files_without_kpi : Nat
  score_distribution : List (Int × Nat)
  average_score : ℚ
deriving DecidableEq

/-- `KPIChecker.analyze_results` (lines 103-138) over an insertion-ordered
verdict map; `none` models an exception escaping the function. -/
def analyzeResults (results : List (String × Verdict)) : Option Summary :=
  let verdicts := results.map Prod.snd
  let total := results.length
  let withKpi := (verdicts.filter (fun v => v.has_kpi_statement)).length
  match distLoop verdicts [], scoreSum verdicts with
  | some d, some tot =>
    let avg : ℚ := if 0 < withKpi then mkRat tot withKpi else 0
    some
      { total_files := total
        files_with_kpi := withKpi
        files_without_kpi := total - withKpi
        score_distribution := d
        average_score := pyRound2 avg }
  | _, _ => none

/-- Sum of the counts of a score distribution. -/
def distSum (d : List (Int × Nat)) : Nat := (d.map Prod.snd).sum

/-- Nonempty and consisting of decimal digits — the shape of every captured
score substring. -/
def isDigitStr (s : String) : Bool := !s.data.isEmpty && s.data.all Char.isDigit

/-- A verdict of the shape `check_text` produces (the spec's Verdict
invariant): when a KPI statement is present the score is a captured
nonempty digit substring, otherwise it is `None`. -/
def Verdict.wfB (v : Verdict) : Bool :=
  match v.has_kpi_statement, v.score with
  | true, .pstr s => isDigitStr s
  | false, .pnone => true
  | _, _ => false

/-- Modelled from the spec's words for claim comparison: the sum of the
present scores of a verdict map (each present verdict's score read as an
integer). -/
def presentScoreSum (results : List (String × Verdict)) : Int :=
  ((results.map Prod.snd).filterMap
    (fun v => if v.has_kpi_statement then pyIntOfScalar v.score else none)).sum

/-- A JSON value, the shape of everything stored in `Config.config` and of
what `json.dump`/`json.load` write and read. -/
inductive JVal where
  | jnull
  | jbool (b : Bool)
  | jnum (n : Int)
  | jstr (s : String)
  | jarr (a : List JVal)
  | jobj (o : List (String × JVal))

mutual

/-- Python `==` on the JSON values this configuration stores. -/
def JVal.beq : JVal → JVal → Bool
  | .jnull, .jnull => true
  | .jbool a, .jbool b => a == b
  | .jnum a, .jnum b => a == b
  | .jstr a, .jstr b => a == b
  | .jarr a, .jarr b => JVal.beqList a b
  | .jobj a, .jobj b => JVal.beqObj a b
  | _, _ => false

/-- Elementwise Python `==` on JSON arrays. -/
def JVal.beqList : List JVal → List JVal → Bool
  | [], [] => true
  | x :: xs, y :: ys => JVal.beq x y && JVal.beqList xs ys
  | _, _ => false

/-- Keywise Python `==` on JSON objects. -/
def JVal.beqObj : List (String × JVal) → List (String × JVal) → Bool
  | [], [] => true
  | (k1, v1) :: xs, (k2, v2) :: ys => k1 == k2 && JVal.beq v1 v2 && JVal.beqObj xs ys
  | _, _ => false

end

/-- Whether a JSON value is an object (`isinstance(value, dict)`). -/
def JVal.isObj : JVal → Bool
  | .jobj _ => true
  | _ => false

/-- The entries of a JSON object (empty elsewhere). -/
def JVal.objEntries : JVal → List (String × JVal)
  | .jobj o => o
  | _ => []

/-- Dictionary lookup (`d[k]` / `d.get(k)`) on an insertion-ordered
association list with unique keys. -/
def dictGet : List (String × JVal) → String → Option JVal
  | [], _ => none
  | kv :: rest, k => if kv.1 == k then some kv.2 else dictGet rest k

/-- Key membership (`k in d`). -/
def dictHas (c : List (String × JVal)) (k : String) : Bool :=
  c.any (fun kv => kv.1 == k)

/-- Dictionary assignment `d[k] = v`: an existing key keeps its position,
a new key is appended (Python dict insertion order). -/
def dictSet (c : List (String × JVal)) (k : String) (v : JVal) :
    List (String × JVal) :=
  if dictHas c k then c.map (fun kv => if kv.1 == k then (k, v) else kv)
  else c ++ [(k, v)]

/-- Python `base.update(other)`. -/
def dictUpdate (base other : List (String × JVal)) : List (String × JVal) :=
  other.foldl (fun b kv => dictSet b kv.1 kv.2) base

/-- One iteration of the merge loop of `Config.load_config` (lines 70-74):
a dict value for a key whose current value is also a dict is merged with
`update`, any other value replaces the current one. -/
def loadStep (base : List (String × JVal)) (k : String) (v : JVal) :
    List (String × JVal) :=
  match v with
  | .jobj o =>
    match dictGet base k with
    | some (.jobj bo) => dictSet base k (.jobj (dictUpdate bo o))
    | _ => dictSet base k v
  | _ => dictSet base k v

/-- The merge loop of `Config.load_config` over the loaded file's items. -/
def loadMerge : List (String × JVal) → List (String × JVal) → List (String × JVal)
  | base, [] => base
  | base, (k, v) :: rest => loadMerge (loadStep base k v) rest

/-- `Config.save_config`: `json.dump(self.config, f)` writes the
configuration as a JSON object; the file and the JSON text encoding (which
round-trips these values) are abstracted away. -/
def saveConfig (c : List (String × JVal)) : JVal := .jobj c

/-- `Config.load_config`: `json.load` reads the saved object back and the
merge loop folds it into the current configuration. -/
def loadConfig (base : List (String × JVal)) (j : JVal) : List (String × JVal) :=
  loadMerge base j.objEntries

/-- `Config.default_config` as a JSON object, in the source's insertion
order. -/
def defaultConfigEntries : List (String × JVal) :=
  [("check_last_paragraphs", .jnum 10),
   ("kpi_patterns",
     .jarr [.jstr pat0src, .jstr pat1src, .jstr pat2src, .jstr pat3src, .jstr pat4src]),
   ("report",
     .jobj [("default_format", .jstr "excel"),
            ("excel_filename", .jstr "KPI检查报告.xlsx"),
            ("txt_filename", .jstr "KPI检查报告.txt")]),
   ("fixer",
     .jobj [("enabled", .jbool false),
            ("template", .jstr "\x7byear\x7d年第\x7bquarter\x7d季度KPI考核自评__分。")])]

/-- `Config.add_kpi_pattern` (lines 125-136): ensure the `kpi_patterns` key
exists, then append the pattern unless an equal one is already in the list.
A non-list value under the key (on which Python would raise) leaves the
configuration unchanged; it is unreachable from this repository's
configurations. -/
def addKpiPattern (c : List (String × JVal)) (p : String) :
    List (String × JVal) :=
  let c1 := if dictHas c "kpi_patterns" then c else dictSet c "kpi_patterns" (.jarr [])
  match dictGet c1 "kpi_patterns" with
  | some (.jarr l) =>
    if l.any (fun v => JVal.beq v (.jstr p)) then c1
    else dictSet c1 "kpi_patterns" (.jarr (l ++ [.jstr p]))
  | _ => c1

theorem data_mk (l : List Char) : (String.mk l).data = l := rfl

theorem firstSome_eq_some {α : Type} {f : Nat → Option α} {ks : List Nat} {r : α}
    (h : firstSome f ks = some r) : ∃ k ∈ ks, f k = some r := by
  induction ks with
  | nil => simp [firstSome] at h
  | cons k ks ih =>
    cases hk : f k with
    | some r0 =>
      simp only [firstSome, hk] at h
      exact ⟨k, by simp, by rw [hk, h]⟩
    | none =>
      simp only [firstSome, hk] at h
      obtain ⟨k2, hk2, hf⟩ := ih h
      exact ⟨k2, by simp [hk2], hf⟩

theorem descRange_mem {hi lo k : Nat} (h : k ∈ descRange hi lo) :
    lo ≤ k ∧ k ≤ hi := by
  simp only [descRange, List.mem_map, List.mem_range] at h
  obtain ⟨j, hj, rfl⟩ := h
  omega

theorem predRun_le_length (p : Char → Bool) : ∀ cs : List Char, predRun p cs ≤ cs.length := by
  intro cs
  induction cs with
  | nil => simp [predRun]
  | cons c cs ih =>
    rw [predRun]
    split
    · simp only [List.length_cons]
      omega
    · exact Nat.zero_le _

theorem itemHi_le (it : Item) (r : Nat) : itemHi it r ≤ r := by
  rw [itemHi]
  split
  · exact Nat.min_le_right _ _
  · exact Nat.le_refl _

theorem all_take_of_le_predRun {p : Char → Bool} :
    ∀ (cs : List Char) (k : Nat), k ≤ predRun p cs → (List.take k cs).all p = true := by
  intro cs
  induction cs with
  | nil =>
    intro k hk
    simp [predRun] at hk
    simp [hk]
  | cons c cs ih =>
    intro k hk
    cases k with
    | zero => simp
    | succ k =>
      rw [predRun] at hk
      by_cases hpc : p c
      · rw [if_pos hpc] at hk
        simp only [List.take_succ_cons, List.all_cons, hpc, Bool.true_and]
        exact ih k (by omega)
      · rw [if_neg hpc] at hk
        omega

theorem scanFrom_eq_some {f : List Char → Option (List (Nat × String) × Nat)} :
    ∀ (cs : List Char) (s : Nat) (r : List (Nat × String) × Nat),
      scanFrom f cs = some (s, r) →
      f (List.drop s cs) = some r ∧ ∀ t, t < s → f (List.drop t cs) = none := by
  intro cs
  induction cs with
  | nil =>
    intro s r h
    rw [scanFrom] at h
    cases hf : f [] with
    | none => rw [hf] at h; simp at h
    | some r0 =>
      rw [hf] at h
      simp only [Option.map_some'] at h
      obtain ⟨hs, hr⟩ := Prod.mk.injEq .. ▸ (Option.some.injEq .. ▸ h)
      constructor
      · rw [← hs, List.drop_nil]
        rw [hf, hr]
      · intro t ht
        omega
  | cons c cs ih =>
    intro s r h
    rw [scanFrom] at h
    cases hf : f (c :: cs) with
    | some r0 =>
      rw [hf] at h
      simp only [Option.some.injEq, Prod.mk.injEq] at h
      obtain ⟨hs, hr⟩ := h
      subst hs
      constructor
      · rw [List.drop_zero, hf, hr]
      · intro t ht
        omega
    | none =>
      rw [hf] at h
      cases hsc : scanFrom f cs with
      | none => rw [hsc] at h; simp at h
      | some p =>
        rw [hsc] at h
        simp only [Option.map_some', Option.some.injEq, Prod.mk.injEq] at h
        obtain ⟨hs, hr⟩ := h
        obtain ⟨h1, h2⟩ := ih p.1 p.2 (by rw [hsc])
        constructor
        · rw [← hs, List.drop_succ_cons, h1, hr]
        · intro t ht
          cases t with
          | zero => simpa using hf
          | succ t =>
            rw [List.drop_succ_cons]
            exact h2 t (by omega)

theorem matchItems_lookup_group :
    ∀ (items : List Item) (cs : List Char) (caps : List (Nat × String)) (n : Nat),
      matchItems items cs = some (caps, n) →
      (items.filterMap Item.group).Nodup →
      ∀ it ∈ items, ∀ g, it.group = some g →
        ∃ s : String, caps.lookup g = some s ∧ it.lo ≤ s.data.length ∧
          s.data.all it.pred = true := by
  intro items
  induction items with
  | nil =>
    intro cs caps n h hd it hit
    simp at hit
  | cons it0 rest ih =>
    intro cs caps n h hd it hit g hg
    rw [matchItems] at h
    obtain ⟨k, hkmem, hFk⟩ := firstSome_eq_some h
    obtain ⟨hlo, hhi⟩ := descRange_mem hkmem
    cases hrest : matchItems rest (List.drop k cs) with
    | none =>
      rw [hrest] at hFk
      simp at hFk
    | some pr =>
      obtain ⟨caps2, n2⟩ := pr
      rw [hrest] at hFk
      simp only [Option.map_some', Option.some.injEq, Prod.mk.injEq] at hFk
      obtain ⟨hcaps, hn⟩ := hFk
      have hkrun : k ≤ predRun it0.pred cs := le_trans hhi (itemHi_le _ _)
      have hklen : k ≤ cs.length := le_trans hkrun (predRun_le_length _ _)
      rcases List.mem_cons.mp hit with rfl | hitrest
      · rw [hg] at hcaps
        rw [pushGroup] at hcaps
        refine ⟨String.mk (List.take k cs), ?_, ?_, ?_⟩
        · rw [← hcaps]
          simp [List.lookup]
        · rw [data_mk, List.length_take]
          omega
        · rw [data_mk]
          exact all_take_of_le_predRun cs k hkrun
      · cases hg0 : it0.group with
        | none =>
          rw [hg0] at hcaps
          rw [pushGroup] at hcaps
          have hd2 : (rest.filterMap Item.group).Nodup := by
            rw [List.filterMap_cons, hg0] at hd
            exact hd
          obtain ⟨s, hlook, hlen, hall⟩ :=
            ih (List.drop k cs) caps2 n2 (by rw [hrest]) hd2 it hitrest g hg
          exact ⟨s, hcaps ▸ hlook, hlen, hall⟩
        | some g0 =>
          rw [hg0] at hcaps
          rw [pushGroup] at hcaps
          rw [List.filterMap_cons, hg0] at hd
          obtain ⟨hg0notin, hd2⟩ := List.nodup_cons.mp hd
          have hgmem : g ∈ rest.filterMap Item.group :=
            List.mem_filterMap.mpr ⟨it, hitrest, hg⟩
          have hgne : g ≠ g0 := fun he => hg0notin (he ▸ hgmem)
          obtain ⟨s, hlook, hlen, hall⟩ :=
            ih (List.drop k cs) caps2 n2 (by rw [hrest]) hd2 it hitrest g hg
          refine ⟨s, ?_, hlen, hall⟩
          rw [← hcaps]
          have hbeq : (g == g0) = false := beq_eq_false_iff_ne.mpr hgne
          simp [List.lookup, hbeq, hlook]

theorem checkLoop_append (pre rest : List Pat) (cs : List Char) :
    ∀ i : Nat, (∀ p ∈ pre, scanFrom (matchItems p.items) cs = none) →
      checkLoop (pre ++ rest) i cs = checkLoop rest (i + pre.length) cs := by
  induction pre with
  | nil =>
    intro i h
    simp
  | cons p pre ih =>
    intro i h
    have hp := h p (List.mem_cons_self _ _)
    simp only [List.cons_append, checkLoop, hp, List.append_eq]
    rw [ih (i + 1) (fun q hq => h q (List.mem_cons_of_mem _ hq))]
    congr 1
    simp only [List.length_cons]
    omega

theorem checkLoop_all_none (pats : List Pat) (cs : List Char) :
    ∀ i : Nat, (∀ p ∈ pats, scanFrom (matchItems p.items) cs = none) →
      checkLoop pats i cs = absentVerdict := by
  induction pats with
  | nil =>
    intro i h
    rw [checkLoop]
  | cons p pre ih =>
    intro i h
    simp only [checkLoop, h p (List.mem_cons_self _ _)]
    exact ih (i + 1) (fun q hq => h q (List.mem_cons_of_mem _ hq))

theorem checkText_vstr (pats : List Pat) (s : String) (hs : s ≠ "") :
    checkText pats (.vstr s) = checkLoop pats 0 s.data := by
  simp [checkText, pyTruthy, PyVal.isStr, PyVal.strVal, hs]

theorem checkText_not_str (pats : List Pat) (v : PyVal) (h : v.isStr = false) :
    checkText pats v = absentVerdict := by
  simp [checkText, h]

theorem scan_lookup_group (items : List Item) (cs : List Char) (s0 : Nat)
    (caps : List (Nat × String)) (n : Nat)
    (h : scanFrom (matchItems items) cs = some (s0, caps, n))
    (hd : (items.filterMap Item.group).Nodup)
    (it : Item) (hmem : it ∈ items) (g : Nat) (hg : it.group = some g) :
    ∃ s : String, caps.lookup g = some s ∧ it.lo ≤ s.data.length ∧
      s.data.all it.pred = true := by
  obtain ⟨h1, _⟩ := scanFrom_eq_some cs s0 (caps, n) h
  exact matchItems_lookup_group items _ caps n h1 hd it hmem g hg

/-- C1: among the configured patterns, the one with the lowest index that
has a match anywhere in the text determines the verdict — the result is
that pattern's extraction at its own index, and it does not depend on what
comes after the winning pattern in the list.  Concretely, on a text whose
pattern-2 match (`KPI 自评得分 94 分`, at position 0) precedes its
pattern-0 match, the verdict is still pattern 0's extraction. -/
theorem c1_lowest_index_pattern_wins :
    (∀ (pre : List Pat) (x : Pat) (suf suf2 : List Pat) (s : String)
        (m : Nat × (List (Nat × String) × Nat)),
        s ≠ "" →
        (∀ p ∈ pre, scanFrom (matchItems p.items) s.data = none) →
        scanFrom (matchItems x.items) s.data = some m →
        checkText (pre ++ x :: suf) (.vstr s) =
            verdictOfMatch pre.length x.src s.data m ∧
        checkText (pre ++ x :: suf) (.vstr s) =
            checkText (pre ++ x :: suf2) (.vstr s)) ∧
    checkText defaultKpiPatterns
        (.vstr "KPI 自评得分 94 分。2024年第四季度KPI考核自评85分") =
      { has_kpi_statement := true
        score := .pstr "85"
        matching_pattern := some pat0src
        match_text := some "2024年第四季度KPI考核自评85分"
        year := some "2024" } ∧
    scanFrom (matchItems pat2.items)
        (String.data "KPI 自评得分 94 分。2024年第四季度KPI考核自评85分") =
      some (0, [(1, "94")], 13) := by
  refine ⟨?_, by decide, by decide⟩
  intro pre x suf suf2 s m hs hpre hx
  have key : ∀ tail : List Pat,
      checkText (pre ++ x :: tail) (.vstr s) =
        verdictOfMatch pre.length x.src s.data m := by
    intro tail
    rw [checkText_vstr _ _ hs]
    rw [checkLoop_append pre (x :: tail) s.data 0 hpre]
    simp only [checkLoop, hx]
    rw [Nat.zero_add]
  exact ⟨key suf, (key suf).trans (key suf2).symm⟩

theorem c1_lowest_index_pattern_wins_witness :
    checkText ([pat0, pat1] ++ pat2 :: [pat3, pat4]) (.vstr "KPI 自评得分 94 分") =
        verdictOfMatch 2 pat2.src (String.data "KPI 自评得分 94 分")
          (0, [(1, "94")], 13) ∧
    checkText ([pat0, pat1] ++ pat2 :: [pat3, pat4]) (.vstr "KPI 自评得分 94 分") =
        checkText ([pat0, pat1] ++ pat2 :: []) (.vstr "KPI 自评得分 94 分") :=
  c1_lowest_index_pattern_wins.1 [pat0, pat1] pat2 [pat3, pat4] []
    "KPI 自评得分 94 分" (0, [(1, "94")], 13) (by decide) (by decide) (by decide)

/-- C7: when the winning (lowest-index matching) pattern matches the text,
the verdict `check_text` returns is extracted from that pattern's first
(leftmost) occurrence: the used match starts at position `m.1`, the pattern
matches there, and it matches at no earlier position. -/
theorem c7_leftmost_occurrence_used :
    ∀ (pre : List Pat) (x : Pat) (suf : List Pat) (s : String)
      (m : Nat × (List (Nat × String) × Nat)),
      s ≠ "" →
      (∀ p ∈ pre, scanFrom (matchItems p.items) s.data = none) →
      scanFrom (matchItems x.items) s.data = some m →
      checkText (pre ++ x :: suf) (.vstr s) =
          verdictOfMatch pre.length x.src s.data m ∧
      matchItems x.items (List.drop m.1 s.data) = some m.2 ∧
      ∀ t, t < m.1 → matchItems x.items (List.drop t s.data) = none := by
  intro pre x suf s m hs hpre hx
  obtain ⟨m1, m2⟩ := m
  obtain ⟨h1, h2⟩ := scanFrom_eq_some s.data m1 m2 hx
  refine ⟨?_, h1, h2⟩
  rw [checkText_vstr _ _ hs]
  rw [checkLoop_append pre (x :: suf) s.data 0 hpre]
  simp only [checkLoop, hx]
  rw [Nat.zero_add]

theorem c7_leftmost_occurrence_used_witness :
    checkText ([pat0, pat1, pat2, pat3] ++ pat4 :: [])
        (.vstr "。KPI考核自评82分，KPI考核自评90分") =
      verdictOfMatch 4 pat4.src (String.data "。KPI考核自评82分，KPI考核自评90分")
        (1, [(1, "82")], 10) ∧
    matchItems pat4.items
        (List.drop 1 (String.data "。KPI考核自评82分，KPI考核自评90分")) =
      some ([(1, "82")], 10) :=
  ⟨(c7_leftmost_occurrence_used [pat0, pat1, pat2, pat3] pat4 []
      "。KPI考核自评82分，KPI考核自评90分" (1, [(1, "82")], 10)
      (by decide) (by decide) (by decide)).1,
   (c7_leftmost_occurrence_used [pat0, pat1, pat2, pat3] pat4 []
      "。KPI考核自评82分，KPI考核自评90分" (1, [(1, "82")], 10)
      (by decide) (by decide) (by decide)).2.1⟩

/-- C6: empty text, absent (`None`) text, and any text in which no
configured pattern finds a match all make `check_text` return the absent
verdict with every optional field `None`, as an ordinary defined branch —
concretely including whitespace-only text. -/
theorem c6_empty_or_no_match_is_absent :
    (∀ pats : List Pat, checkText pats (.vstr "") = absentVerdict) ∧
    (∀ pats : List Pat, checkText pats .vnone = absentVerdict) ∧
    (∀ (pats : List Pat) (s : String),
      (∀ p ∈ pats, scanFrom (matchItems p.items) s.data = none) →
      checkText pats (.vstr s) = absentVerdict) ∧
    checkText defaultKpiPatterns (.vstr "   ") = absentVerdict := by
  refine ⟨?_, ?_, ?_, by decide⟩
  · intro pats
    simp [checkText, pyTruthy]
  · intro pats
    rfl
  · intro pats s h
    by_cases hs : s = ""
    · subst hs
      simp [checkText, pyTruthy]
    · rw [checkText_vstr _ _ hs]
      exact checkLoop_all_none pats s.data 0 h

theorem c6_empty_or_no_match_is_absent_witness :
    checkText defaultKpiPatterns (.vstr "本季度工作总结：无相关内容") = absentVerdict :=
  c6_empty_or_no_match_is_absent.2.2.1 defaultKpiPatterns
    "本季度工作总结：无相关内容" (by decide)

/-- C10: any non-string input value (`None`, a number, a list, ...) takes
the same guard branch as empty text: `check_text` is a total function on
such values and returns the absent verdict rather than raising. -/
theorem c10_non_string_input_absent :
    ∀ (pats : List Pat) (v : PyVal), v.isStr = false →
      checkText pats v = checkText pats (.vstr "") ∧
      checkText pats v = absentVerdict := by
  intro pats v h
  have ha : checkText pats v = absentVerdict := checkText_not_str pats v h
  have hb : checkText pats (.vstr "") = absentVerdict := by
    simp [checkText, pyTruthy]
  exact ⟨ha.trans hb.symm, ha⟩

theorem c10_non_string_input_absent_witness :
    (checkText defaultKpiPatterns (.vint 5) = checkText defaultKpiPatterns (.vstr "") ∧
     checkText defaultKpiPatterns (.vint 5) = absentVerdict) ∧
    (checkText defaultKpiPatterns .vnone = checkText defaultKpiPatterns (.vstr "") ∧
     checkText defaultKpiPatterns .vnone = absentVerdict) ∧
    (checkText defaultKpiPatterns (.vlist [.vint 1]) =
        checkText defaultKpiPatterns (.vstr "") ∧
     checkText defaultKpiPatterns (.vlist [.vint 1]) = absentVerdict) :=
  ⟨c10_non_string_input_absent defaultKpiPatterns (.vint 5) rfl,
   c10_non_string_input_absent defaultKpiPatterns .vnone rfl,
   c10_non_string_input_absent defaultKpiPatterns (.vlist [.vint 1]) rfl⟩

/-- C2 is false as stated: on the text `2024年第四季度KPI考核自评085分` the
score field `check_text` stores is the literal captured substring `"085"`
(a `str`), not the base-10 integer 85 — `int` parsing only happens later in
`analyze_results`. -/
theorem c2_score_counterexample :
    (checkText defaultKpiPatterns (.vstr "2024年第四季度KPI考核自评085分")).score =
        PyScalar.pstr "085" ∧
    (checkText defaultKpiPatterns (.vstr "2024年第四季度KPI考核自评085分")).score ≠
        PyScalar.pint 85 := by
  decide

theorem verdictOfMatch_fields_zero (src : String) (cs : List Char)
    (m : Nat × (List (Nat × String) × Nat)) (s : String)
    (h : m.2.1.lookup 2 = some s) :
    verdictOfMatch 0 src cs m =
      { has_kpi_statement := true
        score := .pstr s
        matching_pattern := some src
        match_text := some (String.mk (List.take m.2.2 (List.drop m.1 cs)))
        year := m.2.1.lookup 1 } := by
  rw [verdictOfMatch]
  simp [capScalar, h]

theorem verdictOfMatch_fields_pos (i : Nat) (hi : (i == 0) = false)
    (src : String) (cs : List Char) (m : Nat × (List (Nat × String) × Nat))
    (s : String) (h : m.2.1.lookup 1 = some s) :
    verdictOfMatch i src cs m =
      { has_kpi_statement := true
        score := .pstr s
        matching_pattern := some src
        match_text := some (String.mk (List.take m.2.2 (List.drop m.1 cs)))
        year := none } := by
  rw [verdictOfMatch]
  simp [hi, capScalar, h]

theorem pat0_score_some (cs : List Char) (p n : Nat) (caps : List (Nat × String))
    (h : scanFrom (matchItems pat0.items) cs = some (p, caps, n)) :
    ∃ s, caps.lookup 2 = some s := by
  have hmem : digitsItem 1 3 2 ∈ pat0.items := by
    apply List.mem_cons_of_mem
    apply List.mem_cons_of_mem
    apply List.mem_cons_of_mem
    apply List.mem_cons_of_mem
    exact List.mem_append_right _ (List.mem_cons_self _ _)
  obtain ⟨s, hs, -, -⟩ := scan_lookup_group pat0.items cs p caps n h (by decide) _ hmem 2 rfl
  exact ⟨s, hs⟩

theorem pat1_score_some (cs : List Char) (p n : Nat) (caps : List (Nat × String))
    (h : scanFrom (matchItems pat1.items) cs = some (p, caps, n)) :
    ∃ s, caps.lookup 1 = some s := by
  have hmem : digitsItem 1 3 1 ∈ pat1.items :=
    List.mem_append_right _ (List.mem_cons_self _ _)
  obtain ⟨s, hs, -, -⟩ := scan_lookup_group pat1.items cs p caps n h (by decide) _ hmem 1 rfl
  exact ⟨s, hs⟩

theorem pat2_score_some (cs : List Char) (p n : Nat) (caps : List (Nat × String))
    (h : scanFrom (matchItems pat2.items) cs = some (p, caps, n)) :
    ∃ s, caps.lookup 1 = some s := by
  have hmem : digitsItem 1 3 1 ∈ pat2.items :=
    List.mem_append_right _ (List.mem_cons_of_mem _ (List.mem_cons_self _ _))
  obtain ⟨s, hs, -, -⟩ := scan_lookup_group pat2.items cs p caps n h (by decide) _ hmem 1 rfl
  exact ⟨s, hs⟩

theorem pat3_score_some (cs : List Char) (p n : Nat) (caps : List (Nat × String))
    (h : scanFrom (matchItems pat3.items) cs = some (p, caps, n)) :
    ∃ s, caps.lookup 1 = some s := by
  have hmem : digitsItem 1 3 1 ∈ pat3.items :=
    List.mem_append_right _ (List.mem_cons_of_mem _ (List.mem_cons_self _ _))
  obtain ⟨s, hs, -, -⟩ := scan_lookup_group pat3.items cs p caps n h (by decide) _ hmem 1 rfl
  exact ⟨s, hs⟩

theorem pat4_score_some (cs : List Char) (p n : Nat) (caps : List (Nat × String))
    (h : scanFrom (matchItems pat4.items) cs = some (p, caps, n)) :
    ∃ s, caps.lookup 1 = some s := by
  have hmem : digitsItem 1 3 1 ∈ pat4.items :=
    List.mem_append_right _ (List.mem_cons_self _ _)
  obtain ⟨s, hs, -, -⟩ := scan_lookup_group pat4.items cs p caps n h (by decide) _ hmem 1 rfl
  exact ⟨s, hs⟩

/-- C5: every verdict `check_text` returns with the configured patterns is
all-or-nothing — when a KPI statement is present, `score`,
`matching_pattern` and `match_text` are all present; when absent, they are
all `None`. -/
theorem c5_all_or_nothing (v : PyVal) :
    ((checkText defaultKpiPatterns v).has_kpi_statement = true ∧
     (checkText defaultKpiPatterns v).score ≠ PyScalar.pnone ∧
     (checkText defaultKpiPatterns v).matching_pattern ≠ none ∧
     (checkText defaultKpiPatterns v).match_text ≠ none) ∨
    ((checkText defaultKpiPatterns v).has_kpi_statement = false ∧
     (checkText defaultKpiPatterns v).score = PyScalar.pnone ∧
     (checkText defaultKpiPatterns v).matching_pattern = none ∧
     (checkText defaultKpiPatterns v).match_text = none) := by
  cases v with
  | vnone =>
    rw [checkText_not_str defaultKpiPatterns .vnone rfl]
    right
    exact ⟨rfl, rfl, rfl, rfl⟩
  | vbool b =>
    rw [checkText_not_str defaultKpiPatterns (.vbool b) rfl]
    right
    exact ⟨rfl, rfl, rfl, rfl⟩
  | vint n =>
    rw [checkText_not_str defaultKpiPatterns (.vint n) rfl]
    right
    exact ⟨rfl, rfl, rfl, rfl⟩
  | vlist l =>
    rw [checkText_not_str defaultKpiPatterns (.vlist l) rfl]
    right
    exact ⟨rfl, rfl, rfl, rfl⟩
  | vstr s =>
    by_cases hs : s = ""
    · subst hs
      have he : checkText defaultKpiPatterns (.vstr "") = absentVerdict := by
        simp [checkText, pyTruthy]
      rw [he]
      right
      exact ⟨rfl, rfl, rfl, rfl⟩
    · rw [checkText_vstr _ _ hs]
      rcases h0 : scanFrom (matchItems pat0.items) s.data with _ | m0
      · rcases h1 : scanFrom (matchItems pat1.items) s.data with _ | m1
        · rcases h2 : scanFrom (matchItems pat2.items) s.data with _ | m2
          · rcases h3 : scanFrom (matchItems pat3.items) s.data with _ | m3
            · rcases h4 : scanFrom (matchItems pat4.items) s.data with _ | m4
              · have hred : checkLoop defaultKpiPatterns 0 s.data = absentVerdict := by
                  simp only [defaultKpiPatterns, checkLoop, h0, h1, h2, h3, h4]
                rw [hred]
                right
                exact ⟨rfl, rfl, rfl, rfl⟩
              · obtain ⟨p4, caps4, n4⟩ := m4
                obtain ⟨sc, hsc⟩ := pat4_score_some s.data p4 n4 caps4 h4
                have hred : checkLoop defaultKpiPatterns 0 s.data =
                    verdictOfMatch 4 pat4.src s.data (p4, caps4, n4) := by
                  simp only [defaultKpiPatterns, checkLoop, h0, h1, h2, h3, h4]
                rw [hred, verdictOfMatch_fields_pos 4 rfl _ _ _ sc hsc]
                left
                exact ⟨rfl, by simp, by simp, by simp⟩
            · obtain ⟨p3, caps3, n3⟩ := m3
              obtain ⟨sc, hsc⟩ := pat3_score_some s.data p3 n3 caps3 h3
              have hred : checkLoop defaultKpiPatterns 0 s.data =
                  verdictOfMatch 3 pat3.src s.data (p3, caps3, n3) := by
                simp only [defaultKpiPatterns, checkLoop, h0, h1, h2, h3]
              rw [hred, verdictOfMatch_fields_pos 3 rfl _ _ _ sc hsc]
              left
              exact ⟨rfl, by simp, by simp, by simp⟩
          · obtain ⟨p2, caps2, n2⟩ := m2
            obtain ⟨sc, hsc⟩ := pat2_score_some s.data p2 n2 caps2 h2
            have hred : checkLoop defaultKpiPatterns 0 s.data =
                verdictOfMatch 2 pat2.src s.data (p2, caps2, n2) := by
              simp only [defaultKpiPatterns, checkLoop, h0, h1, h2]
            rw [hred, verdictOfMatch_fields_pos 2 rfl _ _ _ sc hsc]
            left
            exact ⟨rfl, by simp, by simp, by simp⟩
        · obtain ⟨p1, caps1, n1⟩ := m1
          obtain ⟨sc, hsc⟩ := pat1_score_some s.data p1 n1 caps1 h1
          have hred : checkLoop defaultKpiPatterns 0 s.data =
              verdictOfMatch 1 pat1.src s.data (p1, caps1, n1) := by
            simp only [defaultKpiPatterns, checkLoop, h0, h1]
          rw [hred, verdictOfMatch_fields_pos 1 rfl _ _ _ sc hsc]
          left
          exact ⟨rfl, by simp, by simp, by simp⟩
      · obtain ⟨p0, caps0, n0⟩ := m0
        obtain ⟨sc, hsc⟩ := pat0_score_some s.data p0 n0 caps0 h0
        have hred : checkLoop defaultKpiPatterns 0 s.data =
            verdictOfMatch 0 pat0.src s.data (p0, caps0, n0) := by
          simp only [defaultKpiPatterns, checkLoop, h0]
        rw [hred, verdictOfMatch_fields_zero _ _ _ sc hsc]
        left
        exact ⟨rfl, by simp, by simp, by simp⟩

theorem parsePyInt_of_digits {s : String} (h : isDigitStr s = true) :
    ∃ n : Int, parsePyInt s = some n := by
  rw [isDigitStr, Bool.and_eq_true] at h
  obtain ⟨hne, hall⟩ := h
  cases hd : s.data with
  | nil =>
    rw [hd] at hne
    simp at hne
  | cons c rest =>
    rw [hd] at hall
    rw [List.all_cons, Bool.and_eq_true] at hall
    obtain ⟨hc, hrest⟩ := hall
    have hm : ¬ ((c == '-') = true) := by
      intro hcc
      have he : c = '-' := beq_iff_eq.mp hcc
      rw [he] at hc
      exact absurd hc (by decide)
    have hp : ¬ ((c == '+') = true) := by
      intro hcc
      have he : c = '+' := beq_iff_eq.mp hcc
      rw [he] at hc
      exact absurd hc (by decide)
    have hcond : (!(c :: rest).isEmpty && (c :: rest).all Char.isDigit) = true := by
      simp [List.all_cons, hc, hrest]
    refine ⟨(digitsToNat (c :: rest) : Int), ?_⟩
    rw [parsePyInt, hd]
    simp only [if_neg hm, if_neg hp]
    rw [parseDigits, if_pos hcond]
    rfl

theorem wf_score_facts {v : Verdict} (h : v.wfB = true) :
    v.score.truthy = v.has_kpi_statement ∧
    (v.has_kpi_statement = true → ∃ n : Int, pyIntOfScalar v.score = some n) := by
  obtain ⟨b, sc, mp, mt, yr⟩ := v
  cases b with
  | false =>
    cases sc with
    | pnone => exact ⟨rfl, by simp⟩
    | pstr s => simp [Verdict.wfB] at h
    | pint n => simp [Verdict.wfB] at h
  | true =>
    cases sc with
    | pnone => simp [Verdict.wfB] at h
    | pint n => simp [Verdict.wfB] at h
    | pstr s =>
      have hd : isDigitStr s = true := by simpa [Verdict.wfB] using h
      constructor
      · have hne : s.data.isEmpty = false := by
          rw [isDigitStr, Bool.and_eq_true] at hd
          simpa using hd.1
        have hsne : (s == "") = false := by
          refine beq_eq_false_iff_ne.mpr (fun he => ?_)
          rw [he] at hne
          simp at hne
        simp [PyScalar.truthy, hsne]
      · intro _
        exact parsePyInt_of_digits hd

theorem bumpDist_sum (d : List (Int × Nat)) (k : Int) :
    distSum (bumpDist d k) = distSum d + 1 := by
  induction d with
  | nil => simp [bumpDist, distSum]
  | cons kv rest ih =>
    rw [bumpDist]
    by_cases hk : (kv.1 == k) = true
    · rw [if_pos hk]
      simp only [distSum, List.map_cons, List.sum_cons] at ih ⊢
      omega
    · rw [if_neg hk]
      simp only [distSum, List.map_cons, List.sum_cons] at ih ⊢
      omega

theorem distLoop_wf :
    ∀ (vs : List Verdict) (d : List (Int × Nat)),
      (∀ v ∈ vs, v.wfB = true) →
      ∃ d2, distLoop vs d = some d2 ∧
        distSum d2 = distSum d + (vs.filter (fun v => v.has_kpi_statement)).length := by
  intro vs
  induction vs with
  | nil =>
    intro d h
    exact ⟨d, rfl, by simp⟩
  | cons v vs ih =>
    intro d h
    have hv := h v (List.mem_cons_self _ _)
    have hrest : ∀ u ∈ vs, u.wfB = true := fun u hu => h u (List.mem_cons_of_mem _ hu)
    obtain ⟨htr, hparse⟩ := wf_score_facts hv
    cases hk : v.has_kpi_statement with
    | true =>
      obtain ⟨n, hn⟩ := hparse hk
      rw [hk] at htr
      obtain ⟨d2, hd2, hsum⟩ := ih (bumpDist d n) hrest
      refine ⟨d2, ?_, ?_⟩
      · rw [distLoop, htr]
        simp only [if_true, hn]
        exact hd2
      · have hf : List.filter (fun v => v.has_kpi_statement) (v :: vs) =
            v :: List.filter (fun v => v.has_kpi_statement) vs := by
          simp [List.filter_cons, hk]
        rw [hsum, bumpDist_sum, hf, List.length_cons]
        omega
    | false =>
      rw [hk] at htr
      obtain ⟨d2, hd2, hsum⟩ := ih d hrest
      refine ⟨d2, ?_, ?_⟩
      · rw [distLoop, htr]
        simp only [Bool.false_eq_true, if_false]
        exact hd2
      · have hf : List.filter (fun v => v.has_kpi_statement) (v :: vs) =
            List.filter (fun v => v.has_kpi_statement) vs := by
          simp [List.filter_cons, hk]
        rw [hsum, hf]
    
theorem scoreSum_wf :
    ∀ vs : List Verdict, (∀ v ∈ vs, v.wfB = true) →
      scoreSum vs =
        some ((vs.filterMap
          (fun v => if v.has_kpi_statement then pyIntOfScalar v.score else none)).sum) := by
  intro vs
  induction vs with
  | nil =>
    intro h
    simp [scoreSum]
  | cons v vs ih =>
    intro h
    have hv := h v (List.mem_cons_self _ _)
    have hrest : ∀ u ∈ vs, u.wfB = true := fun u hu => h u (List.mem_cons_of_mem _ hu)
    obtain ⟨htr, hparse⟩ := wf_score_facts hv
    cases hk : v.has_kpi_statement with
    | true =>
      obtain ⟨n, hn⟩ := hparse hk
      rw [hk] at htr
      rw [scoreSum, htr]
      simp only [if_true, hn, ih hrest]
      rw [List.filterMap_cons, hk]
      simp [hn]
    | false =>
      rw [hk] at htr
      rw [scoreSum, htr]
      simp only [Bool.false_eq_true, if_false]
      rw [ih hrest, List.filterMap_cons, hk]
      simp

theorem analyzeResults_reduce (results : List (String × Verdict))
    (d : List (Int × Nat)) (t : Int)
    (hd : distLoop (results.map Prod.snd) [] = some d)
    (ht : scoreSum (results.map Prod.snd) = some t) :
    analyzeResults results = some
      { total_files := results.length
        files_with_kpi :=
          ((results.map Prod.snd).filter (fun v => v.has_kpi_statement)).length
        files_without_kpi := results.length -
          ((results.map Prod.snd).filter (fun v => v.has_kpi_statement)).length
        score_distribution := d
        average_score := pyRound2
          (if 0 < ((results.map Prod.snd).filter (fun v => v.has_kpi_statement)).length
           then mkRat t
             (((results.map Prod.snd).filter (fun v => v.has_kpi_statement)).length)
           else 0) } := by
  simp only [analyzeResults, hd, ht]

/-- C3: for every verdict map (well-formed verdicts, as `check_text`
produces them), the summary `analyze_results` returns satisfies
`files_with_kpi + files_without_kpi = total_files` and the counts of
`score_distribution` sum to `files_with_kpi`; on such maps the analysis
always returns a summary. -/
theorem c3_aggregation_sum_laws :
    (∀ (results : List (String × Verdict)) (s : Summary),
        (∀ r ∈ results, r.2.wfB = true) →
        analyzeResults results = some s →
        s.files_with_kpi + s.files_without_kpi = s.total_files ∧
        distSum s.score_distribution = s.files_with_kpi) ∧
    (∀ results : List (String × Verdict),
        (∀ r ∈ results, r.2.wfB = true) →
        (analyzeResults results).isSome = true) := by
  have main : ∀ results : List (String × Verdict),
      (∀ r ∈ results, r.2.wfB = true) →
      ∃ s : Summary, analyzeResults results = some s ∧
        s.files_with_kpi + s.files_without_kpi = s.total_files ∧
        distSum s.score_distribution = s.files_with_kpi := by
    intro results hwf
    have hwf2 : ∀ v ∈ results.map Prod.snd, v.wfB = true := by
      intro v hv
      obtain ⟨r, hr, rfl⟩ := List.mem_map.mp hv
      exact hwf r hr
    obtain ⟨d2, hd2, hsum⟩ := distLoop_wf (results.map Prod.snd) [] hwf2
    have ht := scoreSum_wf (results.map Prod.snd) hwf2
    have hle : ((results.map Prod.snd).filter
        (fun v => v.has_kpi_statement)).length ≤ results.length := by
      have h1 := List.length_filter_le (fun v => v.has_kpi_statement)
        (results.map Prod.snd)
      rw [List.length_map] at h1
      exact h1
    refine ⟨_, analyzeResults_reduce results d2 _ hd2 ht, ?_, ?_⟩
    · dsimp only
      omega
    · dsimp only
      have h0 : distSum ([] : List (Int × Nat)) = 0 := rfl
      rw [h0] at hsum
      omega
  constructor
  · intro results s hwf hs
    obtain ⟨s2, hs2, hprops⟩ := main results hwf
    rw [hs] at hs2
    obtain rfl := Option.some.inj hs2
    exact hprops
  · intro results hwf
    obtain ⟨s2, hs2, -⟩ := main results hwf
    rw [hs2]
    rfl

theorem c3_aggregation_sum_laws_witness :
    ((2 : Nat) + 1 = 3 ∧ distSum [((80 : Int), (2 : Nat))] = 2) ∧
    (analyzeResults
        [("a.docx", ⟨true, .pstr "80", some pat4src, some "KPI考核自评80分", none⟩),
         ("b.docx", ⟨true, .pstr "80", some pat4src, some "KPI考核自评80分", none⟩),
         ("c.docx", absentVerdict)]).isSome = true :=
  ⟨c3_aggregation_sum_laws.1
      [("a.docx", ⟨true, .pstr "80", some pat4src, some "KPI考核自评80分", none⟩),
       ("b.docx", ⟨true, .pstr "80", some pat4src, some "KPI考核自评80分", none⟩),
       ("c.docx", absentVerdict)]
      ⟨3, 2, 1, [(80, 2)], 80⟩ (by decide) (by decide),
   c3_aggregation_sum_laws.2
      [("a.docx", ⟨true, .pstr "80", some pat4src, some "KPI考核自评80分", none⟩),
       ("b.docx", ⟨true, .pstr "80", some pat4src, some "KPI考核自评80分", none⟩),
       ("c.docx", absentVerdict)] (by decide)⟩

/-- C4: on well-formed verdict maps, `average_score` is the sum of the
present scores divided by `files_with_kpi`, rounded at two decimal digits
(ties to even); when `files_with_kpi = 0` it is 0 rather than an error —
including the empty map, which yields the zero summary.  The spec's
scenario of four documents with present scores 80, 90, 100 and one absent
yields totals 4/3/1 and average 90. -/
theorem c4_average_score :
    (∀ (results : List (String × Verdict)) (s : Summary),
        (∀ r ∈ results, r.2.wfB = true) →
        analyzeResults results = some s →
        (0 < s.files_with_kpi →
          s.average_score =
            pyRound2 ((presentScoreSum results : ℚ) / (s.files_with_kpi : ℚ))) ∧
        (s.files_with_kpi = 0 → s.average_score = 0)) ∧
    analyzeResults
        [("a.docx", ⟨true, .pstr "80", some pat4src, some "KPI考核自评80分", none⟩),
         ("b.docx", ⟨true, .pstr "90", some pat4src, some "KPI考核自评90分", none⟩),
         ("c.docx", ⟨true, .pstr "100", some pat4src, some "KPI考核自评100分", none⟩),
         ("d.docx", absentVerdict)] =
      some ⟨4, 3, 1, [(80, 1), (90, 1), (100, 1)], 90⟩ ∧
    analyzeResults [] = some ⟨0, 0, 0, [], 0⟩ := by
  refine ⟨?_, by decide, by decide⟩
  intro results s hwf hs
  have hwf2 : ∀ v ∈ results.map Prod.snd, v.wfB = true := by
    intro v hv
    obtain ⟨r, hr, rfl⟩ := List.mem_map.mp hv
    exact hwf r hr
  obtain ⟨d2, hd2, -⟩ := distLoop_wf (results.map Prod.snd) [] hwf2
  have ht := scoreSum_wf (results.map Prod.snd) hwf2
  have hred := analyzeResults_reduce results d2 _ hd2 ht
  rw [hs] at hred
  obtain rfl := Option.some.inj hred
  constructor
  · intro hpos
    dsimp only at hpos ⊢
    rw [if_pos hpos, Rat.mkRat_eq_div]
    simp only [presentScoreSum]
  · intro h0
    dsimp only at h0 ⊢
    rw [if_neg (by omega)]
    decide

theorem c4_average_score_witness :
    (90 : ℚ) =
      pyRound2 ((presentScoreSum
        [("a.docx", ⟨true, .pstr "80", some pat4src, some "KPI考核自评80分", none⟩),
         ("b.docx", ⟨true, .pstr "90", some pat4src, some "KPI考核自评90分", none⟩),
         ("c.docx", ⟨true, .pstr "100", some pat4src, some "KPI考核自评100分", none⟩),
         ("d.docx", absentVerdict)] : ℚ) / ((3 : Nat) : ℚ)) :=
  (c4_average_score.1
      [("a.docx", ⟨true, .pstr "80", some pat4src, some "KPI考核自评80分", none⟩),
       ("b.docx", ⟨true, .pstr "90", some pat4src, some "KPI考核自评90分", none⟩),
       ("c.docx", ⟨true, .pstr "100", some pat4src, some "KPI考核自评100分", none⟩),
       ("d.docx", absentVerdict)]
      ⟨4, 3, 1, [(80, 1), (90, 1), (100, 1)], 90⟩
      (by decide) (by decide)).1 (by decide)

theorem dictHas_cons (kv : String × JVal) (rest : List (String × JVal)) (k : String) :
    dictHas (kv :: rest) k = ((kv.1 == k) || dictHas rest k) := by
  rw [dictHas, List.any_cons]
  rfl

theorem dictGet_dictSet_self (b : List (String × JVal)) (k : String) (v : JVal) :
    dictGet (dictSet b k v) k = some v := by
  induction b with
  | nil =>
    rw [dictSet, if_neg (by simp [dictHas]), List.nil_append, dictGet,
      if_pos (by simp)]
  | cons kv rest ih =>
    rw [dictSet]
    by_cases hh : dictHas (kv :: rest) k = true
    · rw [if_pos hh]
      simp only [List.map_cons]
      by_cases hk : (kv.1 == k) = true
      · rw [if_pos hk, dictGet, if_pos (by simp)]
      · have hkf : (kv.1 == k) = false := by
          cases hkk : (kv.1 == k)
          · rfl
          · exact absurd hkk hk
        rw [if_neg hk, dictGet, if_neg hk]
        have hr : dictHas rest k = true := by
          rw [dictHas_cons, hkf, Bool.false_or] at hh
          exact hh
        have ih2 := ih
        rw [dictSet, if_pos hr] at ih2
        exact ih2
    · have hhf : dictHas (kv :: rest) k = false := by
        cases hhh : dictHas (kv :: rest) k
        · rfl
        · exact absurd hhh hh
      rw [dictHas_cons] at hhf
      obtain ⟨hkf, hrf⟩ := Bool.or_eq_false_iff.mp hhf
      rw [if_neg hh, List.cons_append, dictGet, if_neg (by simp [hkf])]
      have ih2 := ih
      rw [dictSet, if_neg (by simp [hrf])] at ih2
      exact ih2

theorem dictGet_map_set (rest : List (String × JVal)) (k k2 : String) (v : JVal)
    (hne2 : (k2 == k) = false) :
    dictGet (rest.map (fun kv => if (kv.1 == k2) = true then (k2, v) else kv)) k =
      dictGet rest k := by
  induction rest with
  | nil => rfl
  | cons kv rest ih =>
    simp only [List.map_cons]
    by_cases hk : (kv.1 == k2) = true
    · have hkvk : (kv.1 == k) = false := by
        rw [beq_iff_eq.mp hk]
        exact hne2
      rw [if_pos hk, dictGet, if_neg (by simp [hne2]), dictGet, if_neg (by simp [hkvk])]
      exact ih
    · rw [if_neg hk, dictGet, dictGet]
      by_cases hkv : (kv.1 == k) = true
      · rw [if_pos hkv, if_pos hkv]
      · rw [if_neg hkv, if_neg hkv]
        exact ih

theorem dictGet_append_single (rest : List (String × JVal)) (k k2 : String) (v : JVal)
    (hne2 : (k2 == k) = false) :
    dictGet (rest ++ [(k2, v)]) k = dictGet rest k := by
  induction rest with
  | nil =>
    simp only [List.nil_append, dictGet]
    rw [if_neg (by simp [hne2])]
  | cons kv rest ih =>
    simp only [List.cons_append, dictGet]
    by_cases hkv : (kv.1 == k) = true
    · rw [if_pos hkv, if_pos hkv]
    · rw [if_neg hkv, if_neg hkv]
      exact ih

theorem dictGet_dictSet_ne (b : List (String × JVal)) (k k2 : String) (v : JVal)
    (hne : k ≠ k2) : dictGet (dictSet b k2 v) k = dictGet b k := by
  have hne2 : (k2 == k) = false := beq_eq_false_iff_ne.mpr (Ne.symm hne)
  rw [dictSet]
  by_cases hh : dictHas b k2 = true
  · rw [if_pos hh]
    exact dictGet_map_set b k k2 v hne2
  · rw [if_neg hh]
    exact dictGet_append_single b k k2 v hne2

theorem loadStep_is_set (base : List (String × JVal)) (k1 : String) (v1 : JVal) :
    ∃ w : JVal, loadStep base k1 v1 = dictSet base k1 w := by
  cases v1 with
  | jobj o =>
    rw [loadStep]
    cases hb : dictGet base k1 with
    | none => exact ⟨.jobj o, rfl⟩
    | some bv =>
      cases bv with
      | jobj bo => exact ⟨.jobj (dictUpdate bo o), rfl⟩
      | jnull => exact ⟨.jobj o, rfl⟩
      | jbool b => exact ⟨.jobj o, rfl⟩
      | jnum n => exact ⟨.jobj o, rfl⟩
      | jstr s => exact ⟨.jobj o, rfl⟩
      | jarr a => exact ⟨.jobj o, rfl⟩
  | jnull => exact ⟨.jnull, rfl⟩
  | jbool b => exact ⟨.jbool b, rfl⟩
  | jnum n => exact ⟨.jnum n, rfl⟩
  | jstr s => exact ⟨.jstr s, rfl⟩
  | jarr a => exact ⟨.jarr a, rfl⟩

theorem loadStep_not_obj (base : List (String × JVal)) (k : String) (v : JVal)
    (hobj : v.isObj = false) : loadStep base k v = dictSet base k v := by
  cases v with
  | jobj o => simp [JVal.isObj] at hobj
  | jnull => rfl
  | jbool b => rfl
  | jnum n => rfl
  | jstr s => rfl
  | jarr a => rfl

theorem loadMerge_not_mem (ents : List (String × JVal)) :
    ∀ (base : List (String × JVal)) (k : String), k ∉ ents.map Prod.fst →
      dictGet (loadMerge base ents) k = dictGet base k := by
  induction ents with
  | nil =>
    intro base k h
    rw [loadMerge]
  | cons kv rest ih =>
    intro base k h
    obtain ⟨k1, v1⟩ := kv
    have hk : k ≠ k1 := by
      intro he
      exact h (by simp [he])
    have hrest : k ∉ rest.map Prod.fst := fun hm => h (by simp [hm])
    rw [loadMerge, ih _ k hrest]
    obtain ⟨w, hw⟩ := loadStep_is_set base k1 v1
    rw [hw, dictGet_dictSet_ne base k k1 w hk]

theorem loadMerge_sets_key (v : JVal) (hobj : v.isObj = false) :
    ∀ (ents1 ents2 base : List (String × JVal)) (k : String),
      k ∉ ents1.map Prod.fst → k ∉ ents2.map Prod.fst →
      dictGet (loadMerge base (ents1 ++ (k, v) :: ents2)) k = some v := by
  intro ents1
  induction ents1 with
  | nil =>
    intro ents2 base k h1 h2
    rw [List.nil_append, loadMerge, loadStep_not_obj base k v hobj,
      loadMerge_not_mem ents2 _ k h2, dictGet_dictSet_self]
  | cons kv rest ih =>
    intro ents2 base k h1 h2
    obtain ⟨k1, v1⟩ := kv
    have hrest : k ∉ rest.map Prod.fst := fun hm => h1 (by simp [hm])
    rw [List.cons_append, loadMerge]
    exact ih ents2 _ k hrest h2

theorem dictGet_split (c : List (String × JVal)) (k : String) (v : JVal)
    (h : dictGet c k = some v) :
    ∃ c1 c2, c = c1 ++ (k, v) :: c2 ∧ k ∉ c1.map Prod.fst := by
  induction c with
  | nil => simp [dictGet] at h
  | cons kv rest ih =>
    obtain ⟨a, b⟩ := kv
    by_cases hk : ((a, b).1 == k) = true
    · rw [dictGet, if_pos hk] at h
      obtain rfl := Option.some.inj h
      have hkeq : a = k := beq_iff_eq.mp hk
      subst hkeq
      exact ⟨[], rest, rfl, by simp⟩
    · rw [dictGet, if_neg hk] at h
      obtain ⟨c1, c2, rfl, hnot⟩ := ih h
      refine ⟨(a, b) :: c1, c2, rfl, ?_⟩
      have hne : a ≠ k := by
        refine fun he => hk ?_
        rw [he]
        simp
      simp only [List.map_cons, List.mem_cons]
      rintro (he | hm)
      · exact hne he.symm
      · exact hnot hm

theorem dictHas_eq_isSome (c : List (String × JVal)) (k : String) :
    dictHas c k = (dictGet c k).isSome := by
  induction c with
  | nil => rfl
  | cons kv rest ih =>
    rw [dictHas_cons, dictGet]
    by_cases hk : (kv.1 == k) = true
    · rw [hk, if_pos rfl]
      simp
    · have hkf : (kv.1 == k) = false := by
        cases hkk : (kv.1 == k)
        · rfl
        · exact absurd hkk hk
      rw [hkf, if_neg (by simp), Bool.false_or]
      exact ih

/-- C8: `add_kpi_pattern` appends the pattern at the end of the configured
pattern list when no equal pattern string is already present and leaves the
list unchanged otherwise; in both cases the previously present patterns
keep their relative order (they form the unchanged prefix).  When the key
is missing entirely, the list is created with just the new pattern. -/
theorem c8_add_kpi_pattern (c : List (String × JVal)) (p : String) :
    (∀ l : List JVal, dictGet c "kpi_patterns" = some (.jarr l) →
      dictGet (addKpiPattern c p) "kpi_patterns" =
        some (.jarr (if l.any (fun v => JVal.beq v (.jstr p)) then l
                     else l ++ [.jstr p]))) ∧
    (dictGet c "kpi_patterns" = none →
      dictGet (addKpiPattern c p) "kpi_patterns" = some (.jarr [.jstr p])) := by
  constructor
  · intro l hl
    have hhas : dictHas c "kpi_patterns" = true := by
      rw [dictHas_eq_isSome, hl]
      rfl
    simp only [addKpiPattern]
    rw [hhas, if_pos rfl]
    simp only [hl]
    by_cases ha : l.any (fun v => JVal.beq v (.jstr p)) = true
    · rw [if_pos ha, if_pos ha]
      exact hl
    · rw [if_neg ha, if_neg ha]
      exact dictGet_dictSet_self c "kpi_patterns" (.jarr (l ++ [.jstr p]))
  · intro hl
    have hhf : dictHas c "kpi_patterns" = false := by
      rw [dictHas_eq_isSome, hl]
      rfl
    simp only [addKpiPattern]
    rw [hhf, if_neg (by simp)]
    have hget : dictGet (dictSet c "kpi_patterns" (.jarr [])) "kpi_patterns" =
        some (.jarr ([] : List JVal)) := dictGet_dictSet_self _ _ _
    simp only [hget]
    rw [if_neg (by simp)]
    exact dictGet_dictSet_self _ _ _

theorem c8_add_kpi_pattern_witness :
    dictGet (addKpiPattern defaultConfigEntries "测试KPI(\\d+)分") "kpi_patterns" =
      some (.jarr ([.jstr pat0src, .jstr pat1src, .jstr pat2src, .jstr pat3src,
        .jstr pat4src] ++ [.jstr "测试KPI(\\d+)分"])) ∧
    dictGet (addKpiPattern [] "abc") "kpi_patterns" = some (.jarr [.jstr "abc"]) :=
  ⟨(c8_add_kpi_pattern defaultConfigEntries "测试KPI(\\d+)分").1
      [.jstr pat0src, .jstr pat1src, .jstr pat2src, .jstr pat3src, .jstr pat4src]
      (by rfl),
   (c8_add_kpi_pattern [] "abc").2 (by rfl)⟩

/-- C9: saving a configuration and loading the saved object into a fresh
configuration (whose state is the default) yields the same `kpi_patterns`
sequence, element for element and in order: the saved list is not a JSON
object, so the merge loop replaces the default list with it wholesale. -/
theorem c9_kpi_patterns_roundtrip (c : List (String × JVal)) (l : List JVal)
    (hnodup : (c.map Prod.fst).Nodup)
    (hl : dictGet c "kpi_patterns" = some (.jarr l)) :
    dictGet (loadConfig defaultConfigEntries (saveConfig c)) "kpi_patterns" =
      some (.jarr l) := by
  obtain ⟨c1, c2, rfl, hno1⟩ := dictGet_split c _ _ hl
  have hno2 : "kpi_patterns" ∉ c2.map Prod.fst := by
    rw [List.map_append, List.map_cons] at hnodup
    have h1 := List.Nodup.of_append_right hnodup
    exact (List.nodup_cons.mp h1).1
  simp only [loadConfig, saveConfig, JVal.objEntries]
  exact loadMerge_sets_key (.jarr l) rfl c1 c2 defaultConfigEntries
    "kpi_patterns" hno1 hno2

theorem c9_kpi_patterns_roundtrip_witness :
    dictGet (loadConfig defaultConfigEntries (saveConfig defaultConfigEntries))
        "kpi_patterns" =
      some (.jarr [.jstr pat0src, .jstr pat1src, .jstr pat2src, .jstr pat3src,
        .jstr pat4src]) :=
  c9_kpi_patterns_roundtrip defaultConfigEntries
    [.jstr pat0src, .jstr pat1src, .jstr pat2src, .jstr pat3src, .jstr pat4src]
    (by decide) (by rfl)

theorem c5_all_or_nothing_witness :
    ((checkText defaultKpiPatterns (.vstr "KPI考核自评82分")).has_kpi_statement = true ∧
     (checkText defaultKpiPatterns (.vstr "KPI考核自评82分")).score ≠ PyScalar.pnone ∧
     (checkText defaultKpiPatterns (.vstr "KPI考核自评82分")).matching_pattern ≠ none ∧
     (checkText defaultKpiPatterns (.vstr "KPI考核自评82分")).match_text ≠ none) ∨
    ((checkText defaultKpiPatterns (.vstr "KPI考核自评82分")).has_kpi_statement = false ∧
     (checkText defaultKpiPatterns (.vstr "KPI考核自评82分")).score = PyScalar.pnone ∧
     (checkText defaultKpiPatterns (.vstr "KPI考核自评82分")).matching_pattern = none ∧
     (checkText defaultKpiPatterns (.vstr "KPI考核自评82分")).match_text = none) :=
  c5_all_or_nothing (.vstr "KPI考核自评82分")

theorem isDigitStr_of (s : String) (hne : s.data ≠ [])
    (hall : s.data.all Char.isDigit = true) : isDigitStr s = true := by
  rw [isDigitStr, Bool.and_eq_true]
  refine ⟨?_, hall⟩
  cases hd : s.data with
  | nil => exact absurd hd hne
  | cons c r => rfl

theorem parsePyInt_digitsToNat {s : String} (h : isDigitStr s = true) :
    parsePyInt s = some ((digitsToNat s.data : Nat) : Int) := by
  rw [isDigitStr, Bool.and_eq_true] at h
  obtain ⟨hne, hall⟩ := h
  cases hd : s.data with
  | nil =>
    rw [hd] at hne
    simp at hne
  | cons c rest =>
    rw [hd] at hall
    rw [List.all_cons, Bool.and_eq_true] at hall
    obtain ⟨hc, hrest⟩ := hall
    have hm : ¬ ((c == '-') = true) := by
      intro hcc
      have he : c = '-' := beq_iff_eq.mp hcc
      rw [he] at hc
      exact absurd hc (by decide)
    have hp : ¬ ((c == '+') = true) := by
      intro hcc
      have he : c = '+' := beq_iff_eq.mp hcc
      rw [he] at hc
      exact absurd hc (by decide)
    have hcond : (!(c :: rest).isEmpty && (c :: rest).all Char.isDigit) = true := by
      simp [List.all_cons, hc, hrest]
    rw [parsePyInt, hd]
    simp only [if_neg hm, if_neg hp]
    rw [parseDigits, if_pos hcond]
    rfl

theorem matchItems_capture_full :
    ∀ (items : List Item) (cs : List Char) (caps : List (Nat × String)) (n : Nat),
      matchItems items cs = some (caps, n) →
      (items.filterMap Item.group).Nodup →
      ∀ it ∈ items, ∀ g, it.group = some g →
        ∃ s : String, caps.lookup g = some s ∧ it.lo ≤ s.data.length ∧
          s.data.all it.pred = true ∧
          (∀ m, it.hi = some m → s.data.length ≤ m) ∧
          s.data.IsInfix cs := by
  intro items
  induction items with
  | nil =>
    intro cs caps n h hd it hit
    simp at hit
  | cons it0 rest ih =>
    intro cs caps n h hd it hit g hg
    rw [matchItems] at h
    obtain ⟨k, hkmem, hFk⟩ := firstSome_eq_some h
    obtain ⟨hlo, hhi⟩ := descRange_mem hkmem
    have hkbnd : ∀ m, it0.hi = some m → k ≤ m := by
      intro m hm
      have hmin : itemHi it0 (predRun it0.pred cs) ≤ m := by
        rw [itemHi, hm]
        exact Nat.min_le_left _ _
      exact le_trans hhi hmin
    cases hrest : matchItems rest (List.drop k cs) with
    | none =>
      rw [hrest] at hFk
      simp at hFk
    | some pr =>
      obtain ⟨caps2, n2⟩ := pr
      rw [hrest] at hFk
      simp only [Option.map_some', Option.some.injEq, Prod.mk.injEq] at hFk
      obtain ⟨hcaps, hn⟩ := hFk
      have hkrun : k ≤ predRun it0.pred cs := le_trans hhi (itemHi_le _ _)
      have hklen : k ≤ cs.length := le_trans hkrun (predRun_le_length _ _)
      rcases List.mem_cons.mp hit with rfl | hitrest
      · rw [hg] at hcaps
        rw [pushGroup] at hcaps
        refine ⟨String.mk (List.take k cs), ?_, ?_, ?_, ?_, ?_⟩
        · rw [← hcaps]
          simp [List.lookup]
        · rw [data_mk, List.length_take]
          omega
        · rw [data_mk]
          exact all_take_of_le_predRun cs k hkrun
        · intro m hm
          rw [data_mk, List.length_take, Nat.min_eq_left hklen]
          exact hkbnd m hm
        · rw [data_mk]
          exact (List.take_prefix k cs).isInfix
      · cases hg0 : it0.group with
        | none =>
          rw [hg0] at hcaps
          rw [pushGroup] at hcaps
          have hd2 : (rest.filterMap Item.group).Nodup := by
            rw [List.filterMap_cons, hg0] at hd
            exact hd
          obtain ⟨s, hlook, hlen, hall, hbnd, hinf⟩ :=
            ih (List.drop k cs) caps2 n2 (by rw [hrest]) hd2 it hitrest g hg
          exact ⟨s, hcaps ▸ hlook, hlen, hall, hbnd,
            hinf.trans (List.drop_suffix k cs).isInfix⟩
        | some g0 =>
          rw [hg0] at hcaps
          rw [pushGroup] at hcaps
          rw [List.filterMap_cons, hg0] at hd
          obtain ⟨hg0notin, hd2⟩ := List.nodup_cons.mp hd
          have hgmem : g ∈ rest.filterMap Item.group :=
            List.mem_filterMap.mpr ⟨it, hitrest, hg⟩
          have hgne : g ≠ g0 := fun he => hg0notin (he ▸ hgmem)
          obtain ⟨s, hlook, hlen, hall, hbnd, hinf⟩ :=
            ih (List.drop k cs) caps2 n2 (by rw [hrest]) hd2 it hitrest g hg
          refine ⟨s, ?_, hlen, hall, hbnd,
            hinf.trans (List.drop_suffix k cs).isInfix⟩
          rw [← hcaps]
          have hbeq : (g == g0) = false := beq_eq_false_iff_ne.mpr hgne
          simp [List.lookup, hbeq, hlook]

theorem scan_capture_full (items : List Item) (cs : List Char) (s0 : Nat)
    (caps : List (Nat × String)) (n : Nat)
    (h : scanFrom (matchItems items) cs = some (s0, caps, n))
    (hd : (items.filterMap Item.group).Nodup)
    (it : Item) (hmem : it ∈ items) (g : Nat) (hg : it.group = some g) :
    ∃ s : String, caps.lookup g = some s ∧ it.lo ≤ s.data.length ∧
      s.data.all it.pred = true ∧ (∀ m, it.hi = some m → s.data.length ≤ m) ∧
      s.data.IsInfix cs := by
  obtain ⟨h1, -⟩ := scanFrom_eq_some cs s0 (caps, n) h
  obtain ⟨s, hlook, hlen, hall, hbnd, hinf⟩ :=
    matchItems_capture_full items _ caps n h1 hd it hmem g hg
  exact ⟨s, hlook, hlen, hall, hbnd, hinf.trans (List.drop_suffix s0 cs).isInfix⟩

theorem pat0_capture_facts (cs : List Char) (p n : Nat) (caps : List (Nat × String))
    (h : scanFrom (matchItems pat0.items) cs = some (p, caps, n)) :
    (∃ sc : String, caps.lookup 2 = some sc ∧ sc.data ≠ [] ∧
      sc.data.all Char.isDigit = true ∧ sc.data.IsInfix cs) ∧
    (∃ y : String, caps.lookup 1 = some y ∧ y.data.length = 4 ∧
      y.data.all Char.isDigit = true ∧ y.data.IsInfix cs) := by
  constructor
  · have hmem : digitsItem 1 3 2 ∈ pat0.items := by
      apply List.mem_cons_of_mem
      apply List.mem_cons_of_mem
      apply List.mem_cons_of_mem
      apply List.mem_cons_of_mem
      exact List.mem_append_right _ (List.mem_cons_self _ _)
    obtain ⟨sc, hl, hlen, hall, -, hinf⟩ :=
      scan_capture_full pat0.items cs p caps n h (by decide) _ hmem 2 rfl
    refine ⟨sc, hl, ?_, hall, hinf⟩
    intro he
    rw [he] at hlen
    simp [digitsItem] at hlen
  · have hmem : digitsItem 4 4 1 ∈ pat0.items := List.mem_cons_self _ _
    obtain ⟨y, hl, hlen, hall, hbnd, hinf⟩ :=
      scan_capture_full pat0.items cs p caps n h (by decide) _ hmem 1 rfl
    exact ⟨y, hl, le_antisymm (hbnd 4 rfl) hlen, hall, hinf⟩

theorem pat1_capture_facts (cs : List Char) (p n : Nat) (caps : List (Nat × String))
    (h : scanFrom (matchItems pat1.items) cs = some (p, caps, n)) :
    ∃ sc : String, caps.lookup 1 = some sc ∧ sc.data ≠ [] ∧
      sc.data.all Char.isDigit = true ∧ sc.data.IsInfix cs := by
  have hmem : digitsItem 1 3 1 ∈ pat1.items :=
    List.mem_append_right _ (List.mem_cons_self _ _)
  obtain ⟨sc, hl, hlen, hall, -, hinf⟩ :=
    scan_capture_full pat1.items cs p caps n h (by decide) _ hmem 1 rfl
  refine ⟨sc, hl, ?_, hall, hinf⟩
  intro he
  rw [he] at hlen
  simp [digitsItem] at hlen

theorem pat2_capture_facts (cs : List Char) (p n : Nat) (caps : List (Nat × String))
    (h : scanFrom (matchItems pat2.items) cs = some (p, caps, n)) :
    ∃ sc : String, caps.lookup 1 = some sc ∧ sc.data ≠ [] ∧
      sc.data.all Char.isDigit = true ∧ sc.data.IsInfix cs := by
  have hmem : digitsItem 1 3 1 ∈ pat2.items :=
    List.mem_append_right _ (List.mem_cons_of_mem _ (List.mem_cons_self _ _))
  obtain ⟨sc, hl, hlen, hall, -, hinf⟩ :=
    scan_capture_full pat2.items cs p caps n h (by decide) _ hmem 1 rfl
  refine ⟨sc, hl, ?_, hall, hinf⟩
  intro he
  rw [he] at hlen
  simp [digitsItem] at hlen

theorem pat3_capture_facts (cs : List Char) (p n : Nat) (caps : List (Nat × String))
    (h : scanFrom (matchItems pat3.items) cs = some (p, caps, n)) :
    ∃ sc : String, caps.lookup 1 = some sc ∧ sc.data ≠ [] ∧
      sc.data.all Char.isDigit = true ∧ sc.data.IsInfix cs := by
  have hmem : digitsItem 1 3 1 ∈ pat3.items :=
    List.mem_append_right _ (List.mem_cons_of_mem _ (List.mem_cons_self _ _))
  obtain ⟨sc, hl, hlen, hall, -, hinf⟩ :=
    scan_capture_full pat3.items cs p caps n h (by decide) _ hmem 1 rfl
  refine ⟨sc, hl, ?_, hall, hinf⟩
  intro he
  rw [he] at hlen
  simp [digitsItem] at hlen

theorem pat4_capture_facts (cs : List Char) (p n : Nat) (caps : List (Nat × String))
    (h : scanFrom (matchItems pat4.items) cs = some (p, caps, n)) :
    ∃ sc : String, caps.lookup 1 = some sc ∧ sc.data ≠ [] ∧
      sc.data.all Char.isDigit = true ∧ sc.data.IsInfix cs := by
  have hmem : digitsItem 1 3 1 ∈ pat4.items :=
    List.mem_append_right _ (List.mem_cons_self _ _)
  obtain ⟨sc, hl, hlen, hall, -, hinf⟩ :=
    scan_capture_full pat4.items cs p caps n h (by decide) _ hmem 1 rfl
  refine ⟨sc, hl, ?_, hall, hinf⟩
  intro he
  rw [he] at hlen
  simp [digitsItem] at hlen

/-- C2 amended: for every text on which `check_text` reports a KPI
statement with the configured patterns, the verdict's score field is the
literal captured score substring — stored as a string, a nonempty all-digit
substring of the text whose base-10 parse is the score — and the year
field, when present, is the literal captured substring, a 4-digit substring
of the text.  On the scenario text this gives score `"85"` (parsing to 85),
year `"2024"`, pattern index 0; a leading zero is kept (`"085"`), which is
why the field is not the parsed integer. -/
theorem c2_score_is_captured_substring :
    (∀ (s : String) (v : Verdict), v = checkText defaultKpiPatterns (.vstr s) →
      v.has_kpi_statement = true →
      v.score = PyScalar.pstr v.scoreStr ∧
      v.scoreStr.data ≠ [] ∧
      v.scoreStr.data.all Char.isDigit = true ∧
      v.scoreStr.data.IsInfix s.data ∧
      parsePyInt v.scoreStr = some ((digitsToNat v.scoreStr.data : Nat) : Int) ∧
      (v.year = none ∨
        (v.year = some v.yearStr ∧ v.yearStr.data.length = 4 ∧
          v.yearStr.data.all Char.isDigit = true ∧
          v.yearStr.data.IsInfix s.data))) ∧
    checkText defaultKpiPatterns (.vstr "2024年第四季度KPI考核自评85分") =
      { has_kpi_statement := true
        score := .pstr "85"
        matching_pattern := some pat0src
        match_text := some "2024年第四季度KPI考核自评85分"
        year := some "2024" } ∧
    parsePyInt "85" = some 85 ∧
    checkText defaultKpiPatterns (.vstr "2024年第四季度KPI考核自评085分") =
      { has_kpi_statement := true
        score := .pstr "085"
        matching_pattern := some pat0src
        match_text := some "2024年第四季度KPI考核自评085分"
        year := some "2024" } ∧
    parsePyInt "085" = some 85 := by
  refine ⟨?_, by decide, by decide, by decide, by decide⟩
  intro s v hv hkpi
  subst hv
  by_cases hs : s = ""
  · subst hs
    have he : checkText defaultKpiPatterns (.vstr "") = absentVerdict := by
      simp [checkText, pyTruthy]
    rw [he] at hkpi
    simp [absentVerdict] at hkpi
  · rw [checkText_vstr _ _ hs] at hkpi ⊢
    rcases h0 : scanFrom (matchItems pat0.items) s.data with _ | m0
    · rcases h1 : scanFrom (matchItems pat1.items) s.data with _ | m1
      · rcases h2 : scanFrom (matchItems pat2.items) s.data with _ | m2
        · rcases h3 : scanFrom (matchItems pat3.items) s.data with _ | m3
          · rcases h4 : scanFrom (matchItems pat4.items) s.data with _ | m4
            · have hred : checkLoop defaultKpiPatterns 0 s.data = absentVerdict := by
                simp only [defaultKpiPatterns, checkLoop, h0, h1, h2, h3, h4]
              rw [hred] at hkpi
              simp [absentVerdict] at hkpi
            · obtain ⟨p4, caps4, n4⟩ := m4
              obtain ⟨sc, hsc, hne, hall, hinf⟩ := pat4_capture_facts s.data p4 n4 caps4 h4
              have hred : checkLoop defaultKpiPatterns 0 s.data =
                  verdictOfMatch 4 pat4.src s.data (p4, caps4, n4) := by
                simp only [defaultKpiPatterns, checkLoop, h0, h1, h2, h3, h4]
              rw [hred, verdictOfMatch_fields_pos 4 rfl _ _ _ sc hsc]
              exact ⟨rfl, hne, hall, hinf,
                parsePyInt_digitsToNat (isDigitStr_of sc hne hall), Or.inl rfl⟩
          · obtain ⟨p3, caps3, n3⟩ := m3
            obtain ⟨sc, hsc, hne, hall, hinf⟩ := pat3_capture_facts s.data p3 n3 caps3 h3
            have hred : checkLoop defaultKpiPatterns 0 s.data =
                verdictOfMatch 3 pat3.src s.data (p3, caps3, n3) := by
              simp only [defaultKpiPatterns, checkLoop, h0, h1, h2, h3]
            rw [hred, verdictOfMatch_fields_pos 3 rfl _ _ _ sc hsc]
            exact ⟨rfl, hne, hall, hinf,
              parsePyInt_digitsToNat (isDigitStr_of sc hne hall), Or.inl rfl⟩
        · obtain ⟨p2, caps2, n2⟩ := m2
          obtain ⟨sc, hsc, hne, hall, hinf⟩ := pat2_capture_facts s.data p2 n2 caps2 h2
          have hred : checkLoop defaultKpiPatterns 0 s.data =
              verdictOfMatch 2 pat2.src s.data (p2, caps2, n2) := by
            simp only [defaultKpiPatterns, checkLoop, h0, h1, h2]
          rw [hred, verdictOfMatch_fields_pos 2 rfl _ _ _ sc hsc]
          exact ⟨rfl, hne, hall, hinf,
            parsePyInt_digitsToNat (isDigitStr_of sc hne hall), Or.inl rfl⟩
      · obtain ⟨p1, caps1, n1⟩ := m1
        obtain ⟨sc, hsc, hne, hall, hinf⟩ := pat1_capture_facts s.data p1 n1 caps1 h1
        have hred : checkLoop defaultKpiPatterns 0 s.data =
            verdictOfMatch 1 pat1.src s.data (p1, caps1, n1) := by
          simp only [defaultKpiPatterns, checkLoop, h0, h1]
        rw [hred, verdictOfMatch_fields_pos 1 rfl _ _ _ sc hsc]
        exact ⟨rfl, hne, hall, hinf,
          parsePyInt_digitsToNat (isDigitStr_of sc hne hall), Or.inl rfl⟩
    · obtain ⟨p0, caps0, n0⟩ := m0
      obtain ⟨⟨sc, hsc, hne, hall, hinf⟩, ⟨y, hy, hy4, hyall, hyinf⟩⟩ :=
        pat0_capture_facts s.data p0 n0 caps0 h0
      have hred : checkLoop defaultKpiPatterns 0 s.data =
          verdictOfMatch 0 pat0.src s.data (p0, caps0, n0) := by
        simp only [defaultKpiPatterns, checkLoop, h0]
      rw [hred, verdictOfMatch_fields_zero _ _ _ sc hsc]
      refine ⟨rfl, hne, hall, hinf,
        parsePyInt_digitsToNat (isDigitStr_of sc hne hall), Or.inr ?_⟩
      dsimp only [Verdict.yearStr]
      rw [hy]
      exact ⟨rfl, hy4, hyall, hyinf⟩

theorem c2_score_is_captured_substring_witness :
    (PyScalar.pstr "85" = PyScalar.pstr "85") ∧
    (("85" : String).data ≠ []) ∧
    (("85" : String).data.all Char.isDigit = true) ∧
    List.IsInfix ("85" : String).data
      ("2024年第四季度KPI考核自评85分" : String).data ∧
    parsePyInt "85" = some (85 : Int) ∧
    ((some "2024" : Option String) = none ∨
      ((some "2024" : Option String) = some "2024" ∧
        ("2024" : String).data.length = 4 ∧
        ("2024" : String).data.all Char.isDigit = true ∧
        List.IsInfix ("2024" : String).data
          ("2024年第四季度KPI考核自评85分" : String).data)) :=
  c2_score_is_captured_substring.1 "2024年第四季度KPI考核自评85分"
    ⟨true, .pstr "85", some pat0src, some "2024年第四季度KPI考核自评85分",
      some "2024"⟩
    (by decide) rfl
